import Mathlib

/-
Verification of the advanced-vector container (src/advanced-vector/vector.h):
a `RawMemory<T>` block owner and a `Vector<T>` dynamic array built on it.

The embedding is by value: a `Vec α` records the list of live (constructed)
elements occupying slots `[0, size_)` of the owned `RawMemory` block together
with the block capacity `data_.Capacity()`.  Uninitialized slots carry no
observable value, so they are not represented; constructing into the next
raw slot is modelled by appending to the live list.  The compile-time branch
`is_nothrow_move_constructible_v<T> || !is_copy_constructible_v<T>` is the
boolean parameter `relocate`.  Element-level loops of the source
(`std::move_backward`, the shifting `std::move`/`std::copy` in `Erase`) are
modelled slot by slot, as loops over `List.set`, so that the order of reads
and writes of the source is preserved.
-/

namespace AdvVector

/-- Abstract state of a `Vector<T>`: `elems` lists the live elements held in
slots `[0, size_)`, and `cap` is `data_.Capacity()`.  `size_` is
`elems.length`. -/
structure Vec (α : Type) where
  elems : List α
  cap : Nat
deriving DecidableEq

variable {α : Type}

/-- Number of live elements, `Vector::Size()`. -/
def Vec.size (v : Vec α) : Nat := v.elems.length

/-- The container invariant: `0 ≤ size_ ≤ data_.Capacity()` (slots
`[0, size_)` constructed, slots `[size_, capacity)` raw). -/
def Vec.Inv (v : Vec α) : Prop := v.elems.length ≤ v.cap

instance (v : Vec α) : Decidable v.Inv := Nat.decLe _ _

/-- Model of `Vector()`: size 0, capacity 0, no allocation. -/
def Vec.mkEmpty : Vec α := { elems := [], cap := 0 }

/-- Model of `Vector(size_t size)`: capacity `n`, `n` value-constructed
elements. -/
def Vec.mkSized [Inhabited α] (n : Nat) : Vec α :=
  { elems := List.replicate n default, cap := n }

/-- Model of `Vector(const Vector&)`: allocates `other.size_` slots and
copy-constructs each live element in order. -/
def Vec.copyCtor (other : Vec α) : Vec α :=
  { elems := other.elems, cap := other.elems.length }

/-- Model of `Vector(Vector&&)`: the pair is (destination, source after the
move); `std::exchange` leaves the source with a default `RawMemory` and
size 0. -/
def Vec.moveCtor (other : Vec α) : Vec α × Vec α :=
  ({ elems := other.elems, cap := other.cap }, { elems := [], cap := 0 })

/-- Model of `std::uninitialized_move_n(src, n, dst)` into fresh raw slots:
the first `n` values end up constructed in order in the new block. -/
def uninitializedMoveN (src : List α) (n : Nat) : List α := src.take n

/-- Model of `std::uninitialized_copy_n(src, n, dst)` into fresh raw slots. -/
def uninitializedCopyN (src : List α) (n : Nat) : List α := src.take n

/-- Model of `std::copy_n(src, n, dst)` onto the live prefix of `dst`:
the first `n` slots are overwritten, the rest of `dst` keeps its values. -/
def copyN (src dst : List α) (n : Nat) : List α := src.take n ++ dst.drop n

/-- Model of `std::destroy_n(data + n, len - n)`: the live range is cut back
to the first `n` slots. -/
def destroyFrom (l : List α) (n : Nat) : List α := l.take n

/-- Model of `operator=(const Vector&)` after the `this != &rhs` guard
(vector.h lines 132-144): if `rhs.size_ > data_.Capacity()`, build
`Vector rhs_copy(rhs)` and `Swap(rhs_copy)`; otherwise reuse the storage,
copy-assigning the overlapping prefix and either destroying the excess tail
or copy-constructing the missing tail. -/
def Vec.copyAssignBody (dst rhs : Vec α) : Vec α :=
  if rhs.elems.length > dst.cap then
    Vec.copyCtor rhs
  else if rhs.elems.length < dst.elems.length then
    { elems := destroyFrom (copyN rhs.elems dst.elems rhs.elems.length) rhs.elems.length,
      cap := dst.cap }
  else
    { elems := copyN rhs.elems dst.elems dst.elems.length ++
        uninitializedCopyN (rhs.elems.drop dst.elems.length)
          (rhs.elems.length - dst.elems.length),
      cap := dst.cap }

/-- Model of `operator=(const Vector&)` (vector.h lines 130-147) including the
`this != &rhs` self-assignment guard; `aliased` states whether
`this == &rhs`, in which case `rhs` is `dst` itself and nothing happens. -/
def Vec.copyAssign (aliased : Bool) (dst rhs : Vec α) : Vec α :=
  if aliased then dst else Vec.copyAssignBody dst rhs

/-- Model of `operator=(Vector&&)` (vector.h lines 149-154): behind the
`this != &rhs` guard the bodies `Swap(rhs)`, exchanging storage and size.
The pair is (destination after, source after). -/
def Vec.moveAssign (aliased : Bool) (dst rhs : Vec α) : Vec α × Vec α :=
  if aliased then (dst, rhs) else (rhs, dst)

/-- Model of `Vector::Swap`: exchanges storage and size in O(1). -/
def Vec.swapOp (a b : Vec α) : Vec α × Vec α := (b, a)

/-- Model of `Vector::Reserve` (vector.h lines 182-196).  `relocate` is the
compile-time policy `is_nothrow_move_constructible_v<T> ||
!is_copy_constructible_v<T>` choosing `uninitialized_move_n` over
`uninitialized_copy_n`; either way the old elements are then destroyed and
the new block adopted by `data_.Swap(new_data)`. -/
def Vec.reserve (relocate : Bool) (v : Vec α) (newCapacity : Nat) : Vec α :=
  if newCapacity ≤ v.cap then v
  else
    { elems :=
        if relocate then uninitializedMoveN v.elems v.elems.length
        else uninitializedCopyN v.elems v.elems.length,
      cap := newCapacity }

/-- Fallible copy construction per element, in slot order, modelling
`std::uninitialized_copy_n` with a payload copy constructor that may throw:
on the first failure the partially constructed prefix is destroyed again and
the exception propagates (`none`). -/
def tryUninitializedCopyN (copy : α → Option α) : List α → Option (List α)
  | [] => some []
  | a :: rest =>
    match copy a with
    | none => none
    | some b =>
      match tryUninitializedCopyN copy rest with
      | none => none
      | some bs => some (b :: bs)

/-- Model of `Vector::Reserve` when the duplicating branch is selected and the
payload copy constructor may fail.  The fields `data_` and `size_` are only
modified by the `std::destroy_n` / `data_.Swap(new_data)` calls placed after
the whole copy loop (vector.h lines 194-195), and the freshly allocated
`new_data` is torn down by its own destructor during unwinding, so on a
failure the exception escapes with the container untouched: `Except.error`
carries the container state the caller observes. -/
def Vec.reserveDup (copy : α → Option α) (v : Vec α) (newCapacity : Nat) :
    Except (Vec α) (Vec α) :=
  if newCapacity ≤ v.cap then Except.ok v
  else
    match tryUninitializedCopyN copy v.elems with
    | none => Except.error v
    | some copied => Except.ok { elems := copied, cap := newCapacity }

/-- Model of `Vector::Resize` (vector.h lines 198-208): destroy the tail when
shrinking, `Reserve` then value-construct the new tail when growing, and
fall through both guards (no effect at all) when `new_size == size_`. -/
def Vec.resize [Inhabited α] (relocate : Bool) (v : Vec α) (newSize : Nat) : Vec α :=
  if newSize < v.elems.length then
    { elems := destroyFrom v.elems newSize, cap := v.cap }
  else if v.elems.length < newSize then
    { elems := (v.reserve relocate newSize).elems ++
        List.replicate (newSize - v.elems.length) default,
      cap := (v.reserve relocate newSize).cap }
  else v

/-- Model of `Vector::PopBack`: destroys the last live element and decrements
`size_` (precondition `size_ > 0` is a debug assertion only). -/
def Vec.popBack (v : Vec α) : Vec α :=
  { elems := v.elems.dropLast, cap := v.cap }

/-- Slot-level model of the descending loop performed by
`std::move_backward(begin() + index, end() - 1, end())`: with `first` the
target offset and count `c`, iteration `k` (for `k = c - 1` down to `0`)
writes slot `first + k + 1` from slot `first + k`, so every slot is read
before any later (lower) iteration could overwrite it. -/
def moveBackwardLoop (d : α) (first : Nat) : List α → Nat → List α
  | buf, 0 => buf
  | buf, Nat.succ c =>
      moveBackwardLoop d first (buf.set (first + c + 1) (buf.getD (first + c) d)) c

/-- Slot-level model of the ascending shift performed by
`std::move(begin() + index + 1, end(), begin() + index)` in `Vector::Erase`
(and by the `std::copy` branch, which assigns the same slots in the same
order): each iteration writes slot `i` from slot `i + 1` and advances, so
every slot is read before it is overwritten. -/
def moveForwardLoop (d : α) : List α → Nat → Nat → List α
  | buf, _, 0 => buf
  | buf, i, Nat.succ c =>
      moveForwardLoop d (buf.set i (buf.getD (i + 1) d)) (i + 1) c

/-- Model of `Vector::Emplace` (vector.h lines 238-277).  `index` is
`pos - cbegin()`.  The constructor arguments are a thunk `arg` evaluated on
the buffer contents at the moment the corresponding `T` constructor runs, so
an argument aliasing a live element reads whatever that slot holds at that
time.  With room and `pos == cend()` the element is constructed directly in
the next raw slot; with room elsewhere, first `T tmp_copy(args...)` is
materialized, then the last element is move-constructed into the next raw
slot, `std::move_backward` shifts `[index, size_ - 1)` one slot later, and
`tmp_copy` is move-assigned into slot `index`.  With no room, a block of
`max(1, capacity * 2)` slots is allocated, the element is constructed
directly at slot `index` of the new block, and the old elements are
transferred around it by the `relocate` policy. -/
def Vec.emplace [Inhabited α] (relocate : Bool) (v : Vec α) (index : Nat)
    (arg : List α → α) : Vec α :=
  if v.elems.length < v.cap then
    if index = v.elems.length then
      { elems := v.elems ++ [arg v.elems], cap := v.cap }
    else
      { elems :=
          (moveBackwardLoop default index
            (v.elems ++ [v.elems.getD (v.elems.length - 1) default])
            (v.elems.length - 1 - index)).set index (arg v.elems),
        cap := v.cap }
  else
    { elems :=
        (if relocate then uninitializedMoveN v.elems index
         else uninitializedCopyN v.elems index) ++
        [arg v.elems] ++
        (if relocate then
          uninitializedMoveN (v.elems.drop index) (v.elems.length - index)
         else uninitializedCopyN (v.elems.drop index) (v.elems.length - index)),
      cap := if v.cap = 0 then 1 else v.cap * 2 }

/-- Model of `Vector::Insert(pos, value)`: forwards to `Emplace` with an
argument thunk that does not read the buffer (an independent value). -/
def Vec.insert [Inhabited α] (relocate : Bool) (v : Vec α) (index : Nat) (x : α) : Vec α :=
  v.emplace relocate index (fun _ => x)

/-- Model of `Vector::PushBack` / `EmplaceBack`: `Emplace` at `end()`. -/
def Vec.pushBack [Inhabited α] (relocate : Bool) (v : Vec α) (x : α) : Vec α :=
  v.emplace relocate v.elems.length (fun _ => x)

/-- Model of `Vector::Erase` (vector.h lines 279-293): shift the range after
`pos` one slot earlier (the `std::move` and `std::copy` branches assign the
same slots in the same order), destroy the vacated last slot, decrement
`size_`. -/
def Vec.erase [Inhabited α] (v : Vec α) (index : Nat) : Vec α :=
  { elems :=
      destroyFrom
        (moveForwardLoop default v.elems index (v.elems.length - index - 1))
        (v.elems.length - 1),
    cap := v.cap }

/-- The vector obtained by pushing the given values in order onto an empty
vector of `Nat`. -/
def pushSeq (xs : List Nat) : Vec Nat :=
  xs.foldl (fun v x => v.pushBack true x) Vec.mkEmpty

/-- The capacity observed after each successive push of `pushSeq`. -/
def pushCaps (xs : List Nat) : List Nat :=
  (List.range xs.length).map (fun k => (pushSeq (xs.take (k + 1))).cap)

/-- Decomposition of `List.insertIdx` into a slice around the new element. -/
theorem insertIdx_take_drop (x : α) :
    ∀ (l : List α) (i : Nat), i ≤ l.length →
      l.insertIdx i x = l.take i ++ x :: l.drop i
  | _, 0, _ => by simp
  | [], i + 1, h => by simp at h
  | a :: l, i + 1, h => by
    rw [List.insertIdx_succ_cons]
    simp only [List.take_succ_cons, List.drop_succ_cons, List.cons_append]
    rw [insertIdx_take_drop x l i (by simpa using h)]

/-- The descending loop shifts the slots `[first, first + c)` one place to the
right, leaving slot `first` (about to be overwritten by the caller) and all
slots past `first + c` alone. -/
theorem moveBackwardLoop_eq (d : α) (first : Nat) :
    ∀ (c : Nat) (buf : List α), first + c < buf.length →
      moveBackwardLoop d first buf c =
        buf.take (first + 1) ++ (buf.drop first).take c ++ buf.drop (first + c + 1)
  | 0, buf, h => by
    simp [moveBackwardLoop, List.take_append_drop]
  | c + 1, buf, h => by
    have hlen : first + c + 1 < buf.length := by omega
    have hc : first + c < buf.length := by omega
    have hx : buf.getD (first + c) d = buf[first + c] := by
      simp [List.getD_eq_getElem?_getD, List.getElem?_eq_getElem hc]
    show moveBackwardLoop d first (buf.set (first + c + 1) (buf.getD (first + c) d)) c = _
    rw [moveBackwardLoop_eq d first c _ (by simp only [List.length_set]; omega)]
    have hA : (buf.set (first + c + 1) (buf.getD (first + c) d)).take (first + 1) =
        buf.take (first + 1) := by
      rw [List.set_take, List.set_eq_of_length_le (by simp only [List.length_take]; omega)]
    have hB : ((buf.set (first + c + 1) (buf.getD (first + c) d)).drop first).take c =
        (buf.drop first).take c := by
      rw [List.drop_set, if_neg (by omega)]
      have h1 : first + c + 1 - first = c + 1 := by omega
      rw [h1, List.set_take, List.set_eq_of_length_le (by simp only [List.length_take]; omega)]
    have hC : (buf.set (first + c + 1) (buf.getD (first + c) d)).drop (first + c + 1) =
        buf.getD (first + c) d :: buf.drop (first + c + 1 + 1) := by
      rw [List.drop_set, if_neg (by omega), Nat.sub_self]
      rw [List.drop_eq_getElem_cons hlen, List.set_cons_zero]
    have hD : (buf.drop first).take (c + 1) =
        (buf.drop first).take c ++ [buf.getD (first + c) d] := by
      rw [List.take_succ, List.getElem?_drop, List.getElem?_eq_getElem hc, hx]
      simp
    rw [hA, hB, hC, hD]
    have h2 : first + c + 1 + 1 = first + (c + 1) + 1 := by omega
    rw [h2]
    simp [List.append_assoc]

/-- The ascending loop shifts the slots `(i, i + c]` one place to the left,
leaving the stale slot `i + c` (about to be destroyed or further shifted by
the caller) and everything before slot `i` alone. -/
theorem moveForwardLoop_eq (d : α) :
    ∀ (c i : Nat) (buf : List α), i + c < buf.length →
      moveForwardLoop d buf i c =
        buf.take i ++ (buf.drop (i + 1)).take c ++ buf.drop (i + c)
  | 0, i, buf, h => by
    simp [moveForwardLoop, List.take_append_drop]
  | c + 1, i, buf, h => by
    have hi : i < buf.length := by omega
    have hi1 : i + 1 < buf.length := by omega
    have hx : buf.getD (i + 1) d = buf[i + 1] := by
      simp [List.getD_eq_getElem?_getD, List.getElem?_eq_getElem hi1]
    show moveForwardLoop d (buf.set i (buf.getD (i + 1) d)) (i + 1) c = _
    rw [moveForwardLoop_eq d c (i + 1) _ (by simp only [List.length_set]; omega)]
    have hA : (buf.set i (buf.getD (i + 1) d)).take (i + 1) =
        buf.take i ++ [buf.getD (i + 1) d] := by
      rw [List.set_take, List.take_succ, List.getElem?_eq_getElem hi]
      rw [List.set_append_right _ _ (by simp only [List.length_take]; omega)]
      have h3 : i - (buf.take i).length = 0 := by simp only [List.length_take]; omega
      rw [h3]
      simp
    have hB : (buf.set i (buf.getD (i + 1) d)).drop (i + 1 + 1) = buf.drop (i + 1 + 1) := by
      rw [List.drop_set, if_pos (by omega)]
    have hC : (buf.set i (buf.getD (i + 1) d)).drop (i + 1 + c) = buf.drop (i + (c + 1)) := by
      rw [List.drop_set, if_pos (by omega)]
      have h4 : i + 1 + c = i + (c + 1) := by omega
      rw [h4]
    have hD : (buf.drop (i + 1)).take (c + 1) =
        buf.getD (i + 1) d :: (buf.drop (i + 1 + 1)).take c := by
      rw [List.drop_eq_getElem_cons hi1, hx, List.take_succ_cons]
    rw [hA, hB, hC, hD]
    simp [List.append_assoc]

/-- The descending loop does not change the buffer length. -/
theorem moveBackwardLoop_length (d : α) (first : Nat) :
    ∀ (c : Nat) (buf : List α), (moveBackwardLoop d first buf c).length = buf.length
  | 0, _ => rfl
  | c + 1, buf => by
    show (moveBackwardLoop d first (buf.set (first + c + 1) (buf.getD (first + c) d)) c).length = _
    rw [moveBackwardLoop_length d first c]
    simp

/-- The ascending loop does not change the buffer length. -/
theorem moveForwardLoop_length (d : α) :
    ∀ (c i : Nat) (buf : List α), (moveForwardLoop d buf i c).length = buf.length
  | 0, _, _ => rfl
  | c + 1, i, buf => by
    show (moveForwardLoop d (buf.set i (buf.getD (i + 1) d)) (i + 1) c).length = _
    rw [moveForwardLoop_length d c]
    simp

/-- A nonempty list is its first `length - 1` elements followed by its last
element (fetched with `getD`). -/
theorem concat_getD_take (d : α) :
    ∀ (t : List α), t ≠ [] → t.take (t.length - 1) ++ [t.getD (t.length - 1) d] = t
  | [a], _ => rfl
  | a :: b :: t, _ => by
    have ih := concat_getD_take d (b :: t) (by simp)
    show (a :: b :: t).take (t.length + 1) ++ [(a :: b :: t).getD (t.length + 1) d] =
      a :: b :: t
    rw [List.take_succ_cons, List.getD_cons_succ]
    simp only [List.cons_append]
    exact congrArg (List.cons a) ih

/-- Functional characterization of `Emplace`: for a valid position the live
elements afterwards are the prior ones with one new value inserted at
`index`, and that value is the one the argument thunk reads off the buffer
before any slot has been touched. -/
theorem emplace_elems_eq [Inhabited α] (relocate : Bool) (v : Vec α) (index : Nat)
    (arg : List α → α) (hidx : index ≤ v.elems.length) :
    (v.emplace relocate index arg).elems = v.elems.insertIdx index (arg v.elems) := by
  unfold Vec.emplace
  by_cases hroom : v.elems.length < v.cap
  · rw [if_pos hroom]
    by_cases hend : index = v.elems.length
    · rw [if_pos hend]
      subst hend
      simp [List.insertIdx_length_self]
    · rw [if_neg hend]
      have hlt : index < v.elems.length := Nat.lt_of_le_of_ne hidx hend
      show (moveBackwardLoop default index
          (v.elems ++ [v.elems.getD (v.elems.length - 1) default])
          (v.elems.length - 1 - index)).set index (arg v.elems) = _
      rw [moveBackwardLoop_eq default index (v.elems.length - 1 - index) _
        (by simp only [List.length_append, List.length_cons, List.length_nil]; omega)]
      have e1 : index + (v.elems.length - 1 - index) + 1 = v.elems.length := by omega
      rw [e1]
      rw [List.take_append_of_le_length (by omega)]
      rw [List.drop_append_of_le_length (by omega)]
      rw [List.take_append_of_le_length (by simp only [List.length_drop]; omega)]
      rw [List.drop_left]
      rw [List.set_append_left _ _ (by
        simp only [List.length_append, List.length_take]; omega)]
      rw [List.set_append_left _ _ (by simp only [List.length_take]; omega)]
      rw [← List.set_take, List.take_succ, List.getElem?_set_self hlt]
      rw [List.set_take, List.set_eq_of_length_le (by simp only [List.length_take]; omega)]
      have hq : (v.elems.drop index).take (v.elems.length - 1 - index) ++
          [v.elems.getD (v.elems.length - 1) default] = v.elems.drop index := by
        have hne : v.elems.drop index ≠ [] := by
          simp only [ne_eq, List.drop_eq_nil_iff]
          omega
        have h6 : (v.elems.drop index).length - 1 = v.elems.length - 1 - index := by
          simp only [List.length_drop]
          omega
        have h7 : (v.elems.drop index).getD ((v.elems.drop index).length - 1) default =
            v.elems.getD (v.elems.length - 1) default := by
          rw [List.getD_eq_getElem?_getD, List.getD_eq_getElem?_getD, List.getElem?_drop]
          have h8 : index + ((v.elems.drop index).length - 1) = v.elems.length - 1 := by
            simp only [List.length_drop]
            omega
          rw [h8]
        rw [← h6, ← h7]
        exact concat_getD_take default _ hne
      rw [insertIdx_take_drop (arg v.elems) v.elems index hidx]
      simp only [List.append_assoc, Option.toList_some]
      rw [hq]
      simp
  · rw [if_neg hroom]
    rw [insertIdx_take_drop (arg v.elems) v.elems index hidx]
    show ((if relocate then uninitializedMoveN v.elems index
        else uninitializedCopyN v.elems index) ++ [arg v.elems] ++
        (if relocate then
          uninitializedMoveN (v.elems.drop index) (v.elems.length - index)
         else uninitializedCopyN (v.elems.drop index) (v.elems.length - index))) = _
    cases relocate <;>
      simp [uninitializedMoveN, uninitializedCopyN,
        List.take_of_length_le, List.append_assoc]

/-- Capacity behaviour of `Emplace`: untouched when a free slot exists,
otherwise the freshly allocated block holds `capacity == 0 ? 1 :
capacity * 2` slots. -/
theorem emplace_cap_eq [Inhabited α] (relocate : Bool) (v : Vec α) (index : Nat)
    (arg : List α → α) :
    (v.emplace relocate index arg).cap =
      if v.elems.length < v.cap then v.cap else if v.cap = 0 then 1 else v.cap * 2 := by
  unfold Vec.emplace
  by_cases hroom : v.elems.length < v.cap
  · rw [if_pos hroom, if_pos hroom]
    by_cases hend : index = v.elems.length <;> simp [hend]
  · rw [if_neg hroom, if_neg hroom]

/-- Functional characterization of `Erase`: for a valid live position the
elements afterwards are the prior ones with the element at `index` removed. -/
theorem erase_elems_eq [Inhabited α] (v : Vec α) (index : Nat)
    (h : index < v.elems.length) :
    (v.erase index).elems = v.elems.eraseIdx index := by
  show destroyFrom
      (moveForwardLoop default v.elems index (v.elems.length - index - 1))
      (v.elems.length - 1) = _
  unfold destroyFrom
  rw [moveForwardLoop_eq default (v.elems.length - index - 1) index v.elems (by omega)]
  have e2 : index + (v.elems.length - index - 1) = v.elems.length - 1 := by omega
  rw [e2]
  rw [List.take_of_length_le (l := v.elems.drop (index + 1))
    (by simp only [List.length_drop]; omega)]
  rw [List.eraseIdx_eq_take_drop_succ]
  have hlen9 : (List.take index v.elems ++ List.drop (index + 1) v.elems).length =
      v.elems.length - 1 := by
    simp only [List.length_append, List.length_take, List.length_drop]
    omega
  rw [List.take_left' hlen9]

/-- Copy assignment always ends with the destination holding exactly the
source's element values, whichever of the three branches ran. -/
theorem copyAssignBody_elems (dst rhs : Vec α) :
    (Vec.copyAssignBody dst rhs).elems = rhs.elems := by
  unfold Vec.copyAssignBody Vec.copyCtor copyN destroyFrom uninitializedCopyN
  by_cases h1 : rhs.elems.length > dst.cap
  · rw [if_pos h1]
  · rw [if_neg h1]
    by_cases h2 : rhs.elems.length < dst.elems.length
    · rw [if_pos h2]
      simp
    · rw [if_neg h2]
      simp [List.take_of_length_le, List.drop_eq_nil_of_le]

/-- Capacity behaviour of copy assignment: a rebuild-and-swap adopts a block
of exactly `rhs.size_` slots, storage reuse keeps the old block. -/
theorem copyAssignBody_cap (dst rhs : Vec α) :
    (Vec.copyAssignBody dst rhs).cap =
      if rhs.elems.length > dst.cap then rhs.elems.length else dst.cap := by
  unfold Vec.copyAssignBody Vec.copyCtor
  by_cases h1 : rhs.elems.length > dst.cap
  · rw [if_pos h1, if_pos h1]
  · rw [if_neg h1, if_neg h1]
    by_cases h2 : rhs.elems.length < dst.elems.length
    · rw [if_pos h2]
    · rw [if_neg h2]

/-- Two container states with the same live elements and the same capacity
are equal. -/
theorem Vec.eq_of_fields {a b : Vec α} (h1 : a.elems = b.elems) (h2 : a.cap = b.cap) :
    a = b := by
  cases a
  cases b
  cases h1
  cases h2
  rfl

/-- `Reserve` preserves the container invariant. -/
theorem reserve_inv (relocate : Bool) (v : Vec α) (n : Nat) (hv : v.Inv) :
    (v.reserve relocate n).Inv := by
  unfold Vec.reserve Vec.Inv at *
  by_cases h : n ≤ v.cap
  · rw [if_pos h]
    exact hv
  · rw [if_neg h]
    cases relocate <;> simp [uninitializedMoveN, uninitializedCopyN] <;> omega

/-- `Emplace` at a valid position preserves the container invariant. -/
theorem emplace_inv [Inhabited α] (relocate : Bool) (v : Vec α) (index : Nat)
    (arg : List α → α) (hv : v.Inv) (hidx : index ≤ v.elems.length) :
    (v.emplace relocate index arg).Inv := by
  have h1 := emplace_elems_eq relocate v index arg hidx
  have h2 := emplace_cap_eq relocate v index arg
  unfold Vec.Inv at hv ⊢
  rw [h1, h2, List.length_insertIdx _ _ hidx]
  by_cases hroom : v.elems.length < v.cap
  · rw [if_pos hroom]
    omega
  · rw [if_neg hroom]
    rcases Nat.eq_zero_or_pos v.cap with h | h
    · rw [if_pos h]
      omega
    · rw [if_neg (by omega)]
      omega

/-- `Resize` preserves the container invariant. -/
theorem resize_inv [Inhabited α] (relocate : Bool) (v : Vec α) (n : Nat) (hv : v.Inv) :
    (v.resize relocate n).Inv := by
  unfold Vec.resize Vec.Inv destroyFrom at *
  by_cases h1 : n < v.elems.length
  · rw [if_pos h1]
    simp only [List.length_take]
    omega
  · rw [if_neg h1]
    by_cases h2 : v.elems.length < n
    · rw [if_pos h2]
      unfold Vec.reserve
      by_cases h3 : n ≤ v.cap
      · rw [if_pos h3]
        simp only [List.length_append, List.length_replicate]
        omega
      · rw [if_neg h3]
        cases relocate <;> simp [uninitializedMoveN, uninitializedCopyN] <;> omega
    · rw [if_neg h2]
      exact hv

/-- `Erase` preserves the container invariant. -/
theorem erase_inv [Inhabited α] (v : Vec α) (index : Nat) (hv : v.Inv) :
    (v.erase index).Inv := by
  unfold Vec.erase Vec.Inv destroyFrom at *
  simp only [List.length_take, moveForwardLoop_length]
  omega

/-- The unguarded copy-assignment body preserves the container invariant. -/
theorem copyAssignBody_inv (dst rhs : Vec α) : (Vec.copyAssignBody dst rhs).Inv := by
  unfold Vec.Inv
  rw [copyAssignBody_elems, copyAssignBody_cap]
  by_cases h : rhs.elems.length > dst.cap
  · rw [if_pos h]
  · rw [if_neg h]
    omega

/-- Claim C1: for a payload whose transfer policy selects duplication, if the
duplicating transfer fails partway during a growth-triggering `Reserve(n)`
with `n > capacity`, then after the failure is observed the vector's size,
capacity, and every element value are exactly as they were before the
call (strong exception safety). -/
theorem reserveDup_failure_leaves_vector_unchanged (copy : α → Option α)
    (v w : Vec α) (n : Nat) (hGrow : v.cap < n)
    (hFail : v.reserveDup copy n = Except.error w) :
    w.size = v.size ∧ w.cap = v.cap ∧ w.elems = v.elems := by
  unfold Vec.reserveDup at hFail
  rw [if_neg (by omega)] at hFail
  cases hres : tryUninitializedCopyN copy v.elems with
  | none =>
    rw [hres] at hFail
    injection hFail with h
    subst h
    exact ⟨rfl, rfl, rfl⟩
  | some copied =>
    rw [hres] at hFail
    simp at hFail

/-- Witness for C1: the copy of element `2` fails while reserving room for 5
elements in a full vector holding `[1, 2, 3]`, and the observed vector is
unchanged. -/
theorem reserveDup_failure_witness :
    (Vec.mk [1, 2, 3] 3 : Vec Nat).reserveDup (fun a => if a = 2 then none else some a) 5 =
        Except.error (Vec.mk [1, 2, 3] 3) ∧
      ((Vec.mk [1, 2, 3] 3 : Vec Nat).size = (Vec.mk [1, 2, 3] 3 : Vec Nat).size ∧
        (Vec.mk [1, 2, 3] 3 : Vec Nat).cap = (Vec.mk [1, 2, 3] 3 : Vec Nat).cap ∧
        (Vec.mk [1, 2, 3] 3 : Vec Nat).elems = (Vec.mk [1, 2, 3] 3 : Vec Nat).elems) :=
  ⟨by rfl,
    reserveDup_failure_leaves_vector_unchanged (fun a => if a = 2 then none else some a)
      (Vec.mk [1, 2, 3] 3) (Vec.mk [1, 2, 3] 3) 5 (by decide) (by rfl)⟩

/-- Claim C2: inserting a reference to the vector's own element `v[i]` at any
valid position produces the same vector as inserting an independent copy of
that element's pre-call value — the temporary is materialized from the
arguments before any existing slot is touched — and either way the result is
the old sequence with the pre-call value of `v[i]` inserted at the
position. -/
theorem emplace_self_reference_safe [Inhabited α] (relocate : Bool) (v : Vec α)
    (index i : Nat) (hidx : index ≤ v.elems.length) (_hi : i < v.elems.length) :
    v.emplace relocate index (fun buf => buf.getD i default) =
        v.emplace relocate index (fun _ => v.elems.getD i default) ∧
      (v.emplace relocate index (fun buf => buf.getD i default)).elems =
        v.elems.insertIdx index (v.elems.getD i default) :=
  ⟨rfl, emplace_elems_eq relocate v index _ hidx⟩

/-- Witness for C2: inserting a reference to element 2 of `[10, 20, 30]`
(capacity 4) at position 1. -/
theorem emplace_self_reference_witness :
    ((1 : Nat) ≤ (Vec.mk [10, 20, 30] 4 : Vec Nat).elems.length ∧
        (2 : Nat) < (Vec.mk [10, 20, 30] 4 : Vec Nat).elems.length) ∧
      ((Vec.mk [10, 20, 30] 4 : Vec Nat).emplace true 1 (fun buf => buf.getD 2 default) =
          (Vec.mk [10, 20, 30] 4 : Vec Nat).emplace true 1
            (fun _ => (Vec.mk [10, 20, 30] 4 : Vec Nat).elems.getD 2 default) ∧
        ((Vec.mk [10, 20, 30] 4 : Vec Nat).emplace true 1
            (fun buf => buf.getD 2 default)).elems =
          (Vec.mk [10, 20, 30] 4 : Vec Nat).elems.insertIdx 1
            ((Vec.mk [10, 20, 30] 4 : Vec Nat).elems.getD 2 default)) :=
  ⟨⟨by decide, by decide⟩,
    emplace_self_reference_safe true (Vec.mk [10, 20, 30] 4) 1 2 (by decide) (by decide)⟩

/-- Claim C3: `Insert(pos, x)` followed by `Erase` at the same position
restores the original element sequence — the original size and every element
value — for every valid position including both ends. -/
theorem insert_erase_roundtrip [Inhabited α] (relocate : Bool) (v : Vec α)
    (index : Nat) (x : α) (hidx : index ≤ v.elems.length) :
    ((v.insert relocate index x).erase index).elems = v.elems ∧
      ((v.insert relocate index x).erase index).size = v.size := by
  have h1 : (v.insert relocate index x).elems = v.elems.insertIdx index x :=
    emplace_elems_eq relocate v index _ hidx
  have h2 : index < (v.insert relocate index x).elems.length := by
    rw [h1, List.length_insertIdx _ _ hidx]
    omega
  have h3 := erase_elems_eq (v.insert relocate index x) index h2
  rw [h1, List.eraseIdx_insertIdx] at h3
  exact ⟨h3, by unfold Vec.size; rw [h3]⟩

/-- Witness for C3 at both ends and in the middle would be analogous; this one
inserts 9 at the front of `[1, 2]` and erases it again. -/
theorem insert_erase_roundtrip_witness :
    ((0 : Nat) ≤ (Vec.mk [1, 2] 4 : Vec Nat).elems.length) ∧
      ((((Vec.mk [1, 2] 4 : Vec Nat).insert true 0 9).erase 0).elems =
          (Vec.mk [1, 2] 4 : Vec Nat).elems ∧
        (((Vec.mk [1, 2] 4 : Vec Nat).insert true 0 9).erase 0).size =
          (Vec.mk [1, 2] 4 : Vec Nat).size) :=
  ⟨by decide, insert_erase_roundtrip true (Vec.mk [1, 2] 4) 0 9 (by decide)⟩

/-- Claim C4, counterexample: move-assigning `src = [2]` into `dst = [1]`
swaps the two containers, so the source ends with size 1 and capacity 1 —
it is not left empty as the claim states for every move operation. -/
theorem moveAssign_source_not_emptied :
    ¬ (((Vec.moveAssign false (Vec.mk [1] 1) (Vec.mk [2] 1) : Vec Nat × Vec Nat).2).size = 0 ∧
        ((Vec.moveAssign false (Vec.mk [1] 1) (Vec.mk [2] 1) : Vec Nat × Vec Nat).2).cap = 0) := by
  decide

/-- Claim C4 as amended: move construction transfers the source's storage and
size to the destination and always leaves the source empty (size 0,
capacity 0); move assignment instead swaps the two containers, so the
destination takes the source's prior storage and size while the source is
left holding the destination's prior storage and size (it ends empty only
when the destination was empty). -/
theorem move_semantics (dst src : Vec α) :
    (Vec.moveCtor src).1.elems = src.elems ∧ (Vec.moveCtor src).1.cap = src.cap ∧
      (Vec.moveCtor src).2.size = 0 ∧ (Vec.moveCtor src).2.cap = 0 ∧
      Vec.moveAssign false dst src = (src, dst) :=
  ⟨rfl, rfl, rfl, rfl, rfl⟩

/-- Claim C5: copy assignment leaves the destination element-wise equal to
the source with equal size; the rebuild-and-swap branch (source larger than
the destination's capacity) adopts a block of exactly `source.size` slots,
while the storage-reuse branch keeps the destination's block. -/
theorem copyAssign_correct (dst rhs : Vec α) :
    (Vec.copyAssign false dst rhs).elems = rhs.elems ∧
      (Vec.copyAssign false dst rhs).size = rhs.size ∧
      (Vec.copyAssign false dst rhs).cap =
        (if rhs.elems.length > dst.cap then rhs.elems.length else dst.cap) := by
  have h := copyAssignBody_elems dst rhs
  exact ⟨h, by unfold Vec.size; exact congrArg List.length h, copyAssignBody_cap dst rhs⟩

/-- Claim C6: `Reserve(n)` with `n ≤ capacity` is a no-op, and with
`n > capacity` it makes the capacity exactly `n` while keeping the size and
every element value unchanged. -/
theorem reserve_spec (relocate : Bool) (v : Vec α) (n : Nat) :
    (n ≤ v.cap → v.reserve relocate n = v) ∧
      (v.cap < n →
        (v.reserve relocate n).cap = n ∧
          (v.reserve relocate n).size = v.size ∧
          (v.reserve relocate n).elems = v.elems) := by
  constructor
  · intro h
    unfold Vec.reserve
    rw [if_pos h]
  · intro h
    unfold Vec.reserve Vec.size
    rw [if_neg (by omega)]
    cases relocate <;> simp [uninitializedMoveN, uninitializedCopyN]

/-- Witness for C6: a shrinking request on `[7]` with capacity 2 is a no-op,
and growing `[7]` from capacity 1 to 3 changes exactly the capacity. -/
theorem reserve_spec_witness :
    ((1 : Nat) ≤ (Vec.mk [7] 2 : Vec Nat).cap ∧
        (Vec.mk [7] 2 : Vec Nat).reserve true 1 = Vec.mk [7] 2) ∧
      ((Vec.mk [7] 1 : Vec Nat).cap < 3 ∧
        (((Vec.mk [7] 1 : Vec Nat).reserve false 3).cap = 3 ∧
          ((Vec.mk [7] 1 : Vec Nat).reserve false 3).size = (Vec.mk [7] 1 : Vec Nat).size ∧
          ((Vec.mk [7] 1 : Vec Nat).reserve false 3).elems = (Vec.mk [7] 1 : Vec Nat).elems)) :=
  ⟨⟨by decide, (reserve_spec true (Vec.mk [7] 2) 1).1 (by decide)⟩,
    ⟨by decide, (reserve_spec false (Vec.mk [7] 1) 3).2 (by decide)⟩⟩

/-- Claim C7: when an append or insert finds no free slot, the newly allocated
block holds `max(1, old_capacity * 2)` slots; pushing the five values
1, 2, 3, 4, 5 onto an initially empty vector yields the capacity sequence
1, 2, 4, 4, 8 after the successive pushes. -/
theorem growth_doubling [Inhabited α] (relocate : Bool) (v : Vec α) (index : Nat)
    (arg : List α → α) (hFull : v.elems.length = v.cap) :
    (v.emplace relocate index arg).cap = max 1 (v.cap * 2) ∧
      pushCaps [1, 2, 3, 4, 5] = [1, 2, 4, 4, 8] := by
  constructor
  · rw [emplace_cap_eq, if_neg (by omega)]
    rcases Nat.eq_zero_or_pos v.cap with h | h
    · rw [if_pos h, h]
      omega
    · rw [if_neg (by omega)]
      omega
  · decide

/-- Witness for C7: the full one-element vector `[5]` (capacity 1) grows to
capacity 2 on the next emplace. -/
theorem growth_doubling_witness :
    ((Vec.mk [5] 1 : Vec Nat).elems.length = (Vec.mk [5] 1 : Vec Nat).cap) ∧
      (((Vec.mk [5] 1 : Vec Nat).emplace true 0 (fun _ => 6)).cap =
          max 1 ((Vec.mk [5] 1 : Vec Nat).cap * 2) ∧
        pushCaps [1, 2, 3, 4, 5] = [1, 2, 4, 4, 8]) :=
  ⟨by decide, growth_doubling true (Vec.mk [5] 1) 0 (fun _ => 6) (by decide)⟩

/-- Claim C8: every public operation of the dynamic array preserves the
invariant `0 ≤ size ≤ capacity`, with slots `[0, size)` holding constructed
elements and slots `[size, capacity)` raw (in this embedding the live slots
are exactly the entries of `elems`, so the invariant is
`elems.length ≤ cap`). -/
theorem operations_preserve_inv [Inhabited α] (relocate aliased : Bool)
    (v w : Vec α) (n index : Nat) (x : α) (arg : List α → α)
    (hv : v.Inv) (hw : w.Inv) (hidx : index ≤ v.elems.length) :
    (Vec.mkEmpty : Vec α).Inv ∧ (Vec.mkSized n : Vec α).Inv ∧
      (Vec.copyCtor v).Inv ∧
      (Vec.moveCtor v).1.Inv ∧ (Vec.moveCtor v).2.Inv ∧
      (Vec.copyAssign aliased v w).Inv ∧
      (Vec.moveAssign aliased v w).1.Inv ∧ (Vec.moveAssign aliased v w).2.Inv ∧
      (Vec.swapOp v w).1.Inv ∧ (Vec.swapOp v w).2.Inv ∧
      (v.reserve relocate n).Inv ∧ (v.resize relocate n).Inv ∧
      (v.pushBack relocate x).Inv ∧ v.popBack.Inv ∧
      (v.emplace relocate index arg).Inv ∧ (v.erase index).Inv := by
  refine ⟨?_, ?_, ?_, ?_, ?_, ?_, ?_, ?_, ?_, ?_, ?_, ?_, ?_, ?_, ?_, ?_⟩
  · exact Nat.le_refl 0
  · simp [Vec.mkSized, Vec.Inv]
  · simp [Vec.copyCtor, Vec.Inv]
  · exact hv
  · exact Nat.le_refl 0
  · cases aliased
    · exact copyAssignBody_inv v w
    · exact hv
  · cases aliased
    · exact hw
    · exact hv
  · cases aliased
    · exact hv
    · exact hw
  · exact hw
  · exact hv
  · exact reserve_inv relocate v n hv
  · exact resize_inv relocate v n hv
  · exact emplace_inv relocate v v.elems.length _ hv (Nat.le_refl _)
  · unfold Vec.popBack Vec.Inv at *
    simp only [List.length_dropLast]
    omega
  · exact emplace_inv relocate v index arg hv hidx
  · exact erase_inv v index hv

/-- Witness for C8 at concrete states `v = [1]` (capacity 2) and
`w = [2, 3]` (capacity 2). -/
theorem operations_preserve_inv_witness :
    ((Vec.mk [1] 2 : Vec Nat).Inv ∧ (Vec.mk [2, 3] 2 : Vec Nat).Inv ∧
        (1 : Nat) ≤ (Vec.mk [1] 2 : Vec Nat).elems.length) ∧
      ((Vec.mkEmpty : Vec Nat).Inv ∧ (Vec.mkSized 3 : Vec Nat).Inv ∧
        (Vec.copyCtor (Vec.mk [1] 2)).Inv ∧
        (Vec.moveCtor (Vec.mk [1] 2) : Vec Nat × Vec Nat).1.Inv ∧
        (Vec.moveCtor (Vec.mk [1] 2) : Vec Nat × Vec Nat).2.Inv ∧
        (Vec.copyAssign false (Vec.mk [1] 2) (Vec.mk [2, 3] 2)).Inv ∧
        (Vec.moveAssign false (Vec.mk [1] 2) (Vec.mk [2, 3] 2)).1.Inv ∧
        (Vec.moveAssign false (Vec.mk [1] 2) (Vec.mk [2, 3] 2)).2.Inv ∧
        (Vec.swapOp (Vec.mk [1] 2) (Vec.mk [2, 3] 2)).1.Inv ∧
        (Vec.swapOp (Vec.mk [1] 2) (Vec.mk [2, 3] 2)).2.Inv ∧
        ((Vec.mk [1] 2 : Vec Nat).reserve true 3).Inv ∧
        ((Vec.mk [1] 2 : Vec Nat).resize true 3).Inv ∧
        ((Vec.mk [1] 2 : Vec Nat).pushBack true 9).Inv ∧
        (Vec.mk [1] 2 : Vec Nat).popBack.Inv ∧
        ((Vec.mk [1] 2 : Vec Nat).emplace true 1 (fun _ => 9)).Inv ∧
        ((Vec.mk [1] 2 : Vec Nat).erase 1).Inv) :=
  ⟨⟨by decide, by decide, by decide⟩,
    operations_preserve_inv true false (Vec.mk [1] 2) (Vec.mk [2, 3] 2) 3 1 9
      (fun _ => 9) (by decide) (by decide) (by decide)⟩

/-- Claim C9: `Resize(n)` with `n` equal to the current size falls through
both guards of `Vector::Resize` and is a complete no-op — size, capacity,
and every element value are unchanged, no new block, no construction, no
destruction. -/
theorem resize_to_same_size_noop [Inhabited α] (relocate : Bool) (v : Vec α) :
    v.resize relocate v.size = v := by
  unfold Vec.resize Vec.size
  rw [if_neg (by omega), if_neg (by omega)]

/-- Claim C10: self-assignment leaves the vector unchanged: both copy
assignment and move assignment are no-ops through the `this != &rhs` guard,
and even the unguarded copy-assignment body maps a vector satisfying the
invariant to itself. -/
theorem self_assignment_noop (v : Vec α) (hv : v.Inv) :
    Vec.copyAssign true v v = v ∧ Vec.moveAssign true v v = (v, v) ∧
      Vec.copyAssignBody v v = v := by
  refine ⟨rfl, rfl, Vec.eq_of_fields (copyAssignBody_elems v v) ?_⟩
  rw [copyAssignBody_cap]
  rw [if_neg (by unfold Vec.Inv at hv; omega)]

/-- Witness for C10 on the vector `[4]` with capacity 2. -/
theorem self_assignment_noop_witness :
    (Vec.mk [4] 2 : Vec Nat).Inv ∧
      (Vec.copyAssign true (Vec.mk [4] 2) (Vec.mk [4] 2) = (Vec.mk [4] 2 : Vec Nat) ∧
        Vec.moveAssign true (Vec.mk [4] 2) (Vec.mk [4] 2) =
          ((Vec.mk [4] 2 : Vec Nat), (Vec.mk [4] 2 : Vec Nat)) ∧
        Vec.copyAssignBody (Vec.mk [4] 2) (Vec.mk [4] 2) = (Vec.mk [4] 2 : Vec Nat)) :=
  ⟨by decide, self_assignment_noop (Vec.mk [4] 2) (by decide)⟩

end AdvVector
